import Mathlib

/-!
Shallow embedding of the ASCII art generator (`src/acii.js`).

Pixel buffers (JS `Uint8ClampedArray`) are modelled as `List ℕ`, each entry an
integer in `[0, 255]`; out-of-range reads (`data[i]` on a typed array) yield a
value that behaves as `0` in the arithmetic here, modelled by `List.getD _ _ 0`.
JS floating point arithmetic is modelled exactly over `ℚ`; for every
computation in this file the double rounding error is too small to change any
`Math.round` / typed-array store (decimal constants are idealised as exact
rationals).  A store into a `Uint8ClampedArray` clamps to `[0,255]` and rounds
to the nearest integer, ties to even; this is `toByte` below.
-/

attribute [local semireducible] Rat.add Rat.sub Rat.mul Rat.inv Rat.ofScientific

/-- JS `Math.round`: round half toward positive infinity.
`Rat.floor` is used instead of `⌊·⌋` so that the kernel can evaluate it. -/
def jsRound (q : ℚ) : ℤ := (q + 1/2).floor

/-- Conversion performed by a store into a `Uint8ClampedArray`:
clamp to `[0,255]`, then round to nearest, ties to even. -/
def toByte (q : ℚ) : ℕ :=
  let c : ℚ := max 0 (min 255 q)
  let f : ℤ := c.floor
  (if c - f < 1/2 then f
   else if (1/2 : ℚ) < c - f then f + 1
   else if f % 2 = 0 then f else f + 1).toNat

/-- Helper `addError(data, idx, errR, errG, errB, factor)` from `src/acii.js`:
three sequential clamped stores into channels `idx`, `idx+1`, `idx+2`. -/
def addError (data : List ℕ) (idx : ℕ) (errR errG errB factor : ℚ) : List ℕ :=
  let d1 := data.set idx (toByte (max 0 (min 255 ((data.getD idx 0 : ℚ) + errR * factor))))
  let d2 := d1.set (idx + 1) (toByte (max 0 (min 255 ((d1.getD (idx + 1) 0 : ℚ) + errG * factor))))
  d2.set (idx + 2) (toByte (max 0 (min 255 ((d2.getD (idx + 2) 0 : ℚ) + errB * factor))))

/-- Error-diffusion block of the dither loop body: the four guarded
`addError` calls, in source order (east 7/16, south-west 3/16, south 5/16,
south-east 1/16).  When the south-west branch runs, `x > 0` guarantees
`idx ≥ 4`, so the `ℕ` subtraction in `idx - 4 + width * 4` agrees with the JS
index arithmetic. -/
def distributeError (width height idx x y : ℕ) (errR errG errB : ℚ)
    (data : List ℕ) : List ℕ :=
  let d1 := if x + 1 < width then addError data (idx + 4) errR errG errB (7/16) else data
  if y + 1 < height then
    let d2 := if 0 < x then addError d1 (idx - 4 + width * 4) errR errG errB (3/16) else d1
    let d3 := addError d2 (idx + width * 4) errR errG errB (5/16)
    if x + 1 < width then addError d3 (idx + 4 + width * 4) errR errG errB (1/16) else d3
  else d1

/-- Body of the double loop of `applyFloydSteinbergDithering` for the pixel at
`(x, y)`: skip transparent pixels, quantize the visited pixel to `grayLevel`
(the typed-array store clamps: `grayLevel` can be `256`), then diffuse the
residual error. -/
def ditherPixel (width height : ℕ) (ditherAmount : ℚ) (data : List ℕ) (x y : ℕ) : List ℕ :=
  let idx := (y * width + x) * 4
  if data.getD (idx + 3) 0 = 0 then data
  else
    let oldR := data.getD idx 0
    let oldG := data.getD (idx + 1) 0
    let oldB := data.getD (idx + 2) 0
    let grayLevel : ℤ := jsRound (((oldR : ℚ) + oldG + oldB) / 3 / 32) * 32
    let d0 := ((data.set idx (toByte (grayLevel : ℚ))).set (idx + 1)
      (toByte (grayLevel : ℚ))).set (idx + 2) (toByte (grayLevel : ℚ))
    let errR := ((oldR : ℚ) - (grayLevel : ℚ)) * ditherAmount
    let errG := ((oldG : ℚ) - (grayLevel : ℚ)) * ditherAmount
    let errB := ((oldB : ℚ) - (grayLevel : ℚ)) * ditherAmount
    distributeError width height idx x y errR errG errB d0

/-- Contents transform of `applyFloydSteinbergDithering`: row-major scan of the
pixel grid, top to bottom, left to right. -/
def applyFloydSteinbergDithering (pixels : List ℕ) (width height : ℕ)
    (ditherAmount : ℚ) : List ℕ :=
  (List.range height).foldl
    (fun d y => (List.range width).foldl
      (fun d2 x => ditherPixel width height ditherAmount d2 x y) d)
    pixels

/-- Call-level model of `applyFloydSteinbergDithering` including aliasing: the
function copies the input into a scratch array, dithers the copy, copies the
result back into the input array, and returns the input array itself.  The heap
maps array addresses to contents. -/
def applyFloydSteinbergDitheringCall (heap : ℕ → List ℕ) (pixels width height : ℕ)
    (ditherAmount : ℚ) : (ℕ → List ℕ) × ℕ :=
  (fun a => if a = pixels then applyFloydSteinbergDithering (heap pixels) width height ditherAmount
            else heap a,
   pixels)

/-- Entry `j` of the result of `applyGaussianBlur`.  The JS code allocates a
zero-filled array and writes only interior pixels (rows `1..height-2`, columns
`1..width-2`): RGB channels get the normalized 3×3 kernel sum, the alpha
channel is copied; every other entry keeps its initial value `0`. -/
def blurEntry (pixels : List ℕ) (width height j : ℕ) : ℕ :=
  let c := j % 4
  let x := (j / 4) % width
  let y := (j / 4) / width
  if 1 ≤ x ∧ x + 1 < width ∧ 1 ≤ y ∧ y + 1 < height then
    if c = 3 then pixels.getD j 0
    else
      let sum : ℚ :=
        (pixels.getD (((y - 1) * width + (x - 1)) * 4 + c) 0 : ℚ) * 1 +
        (pixels.getD (((y - 1) * width + x) * 4 + c) 0 : ℚ) * 2 +
        (pixels.getD (((y - 1) * width + (x + 1)) * 4 + c) 0 : ℚ) * 1 +
        (pixels.getD ((y * width + (x - 1)) * 4 + c) 0 : ℚ) * 2 +
        (pixels.getD ((y * width + x) * 4 + c) 0 : ℚ) * 4 +
        (pixels.getD ((y * width + (x + 1)) * 4 + c) 0 : ℚ) * 2 +
        (pixels.getD (((y + 1) * width + (x - 1)) * 4 + c) 0 : ℚ) * 1 +
        (pixels.getD (((y + 1) * width + x) * 4 + c) 0 : ℚ) * 2 +
        (pixels.getD (((y + 1) * width + (x + 1)) * 4 + c) 0 : ℚ) * 1
      toByte (sum / 16)
  else 0

/-- Contents transform of `applyGaussianBlur` from `src/acii.js`. -/
def applyGaussianBlur (pixels : List ℕ) (width height : ℕ) : List ℕ :=
  (List.range pixels.length).map (blurEntry pixels width height)

/-- Call-level model of `applyGaussianBlur` including allocation: the function
allocates a fresh result array and never writes to its input. -/
def applyGaussianBlurCall (heap : ℕ → List ℕ) (pixels fresh width height : ℕ) :
    (ℕ → List ℕ) × ℕ :=
  (fun a => if a = fresh then applyGaussianBlur (heap pixels) width height else heap a,
   fresh)

/-- Contents transform of `applyUnsharpMask`: `out = clamp(0,255, original +
(original - blurred) * 0.8)` on RGB channels, alpha copied. -/
def applyUnsharpMask (pixels : List ℕ) (width height : ℕ) : List ℕ :=
  let blurred := applyGaussianBlur pixels width height
  (List.range pixels.length).map (fun j =>
    if j % 4 = 3 then pixels.getD j 0
    else toByte (max 0 (min 255 ((pixels.getD j 0 : ℚ) +
      ((pixels.getD j 0 : ℚ) - (blurred.getD j 0 : ℚ)) * 0.8))))

/-- State of an `ASCIIArtGenerator` instance after construction.  JS strings
are modelled as `List Char`; numeric instance fields as `ℚ` (resp. `ℤ` for the
integral `width`). -/
structure ASCIIArtGenerator where
  charSet : List Char
  detailedCharSet : List Char
  width : ℤ
  invertBrightness : Bool
  colorMode : Bool
  contrastFactor : ℚ
  brightnessFactor : ℚ
  useDetailedCharSet : Bool
  applyDithering : Bool
  applySharpening : Bool
  ditherAmount : ℚ

/-- Option bag accepted by the constructor; `none` models an absent property. -/
structure GeneratorOptions where
  charSet : Option (List Char) := none
  width : Option ℤ := none
  invertBrightness : Option Bool := none
  colorMode : Option Bool := none
  contrastFactor : Option ℚ := none
  brightnessFactor : Option ℚ := none
  useDetailedCharSet : Option Bool := none
  applyDithering : Option Bool := none
  applySharpening : Option Bool := none
  ditherAmount : Option ℚ := none

/-- JS `options.x || default` for a numeric option: an absent value and the
falsy number `0` both give the default.  (`NaN`, the only other falsy number,
has no counterpart in `ℚ`.) -/
def orDefaultQ (v : Option ℚ) (d : ℚ) : ℚ :=
  match v with
  | none => d
  | some x => if x = 0 then d else x

/-- JS `options.x || default` for the integral `width` option. -/
def orDefaultZ (v : Option ℤ) (d : ℤ) : ℤ :=
  match v with
  | none => d
  | some x => if x = 0 then d else x

/-- JS `options.x || default` for a string option: the empty string is falsy. -/
def orDefaultStr (v : Option (List Char)) (d : List Char) : List Char :=
  match v with
  | none => d
  | some x => if x = [] then d else x

/-- JS `options.x || false` for a boolean option. -/
def orFalse (v : Option Bool) : Bool := v.getD false

/-- Default character palette of the constructor. -/
def defaultCharSet : List Char := "@%#*+=-:. ".toList

/-- The fixed 70-character detailed palette set by the constructor (braces,
backtick and apostrophe written as `\x`-escapes). -/
def fixedDetailedCharSet : List Char :=
  "$@B%8&WM#*oahkbdpqwmZO0QLCJUYXzcvunxrjft/\\|()1\x7b\x7d[]?-_+~<>i!lI;:,\"^\x60\x27. ".toList

/-- The `ASCIIArtGenerator` constructor from `src/acii.js`. -/
def ASCIIArtGenerator.ofOptions (options : GeneratorOptions) : ASCIIArtGenerator where
  charSet := orDefaultStr options.charSet defaultCharSet
  detailedCharSet := fixedDetailedCharSet
  width := orDefaultZ options.width 100
  invertBrightness := orFalse options.invertBrightness
  colorMode := orFalse options.colorMode
  contrastFactor := orDefaultQ options.contrastFactor 1.0
  brightnessFactor := orDefaultQ options.brightnessFactor 0.0
  useDetailedCharSet := orFalse options.useDetailedCharSet
  applyDithering := orFalse options.applyDithering
  applySharpening := orFalse options.applySharpening
  ditherAmount := orDefaultQ options.ditherAmount 0.5

/-- Perceived-luminance computation of the pixel loop:
`Math.round(0.299*r + 0.587*g + 0.114*b)`. -/
def luminance (r g b : ℕ) : ℤ :=
  jsRound (0.299 * (r : ℚ) + 0.587 * (g : ℚ) + 0.114 * (b : ℚ))

/-- Method `applyContrastAndBrightness` of `src/acii.js`:
`clamp(0,255, (value-128)*contrastFactor + 128 + brightnessFactor*255)`. -/
def applyContrastAndBrightness (contrastFactor brightnessFactor value : ℚ) : ℚ :=
  max 0 (min 255 ((value - 128) * contrastFactor + 128 + brightnessFactor * 255))

/-- Character-index computation of the pixel loop, before clamping. -/
def charIndexRaw (invert : Bool) (len : ℕ) (brightness : ℚ) : ℤ :=
  if invert then (brightness / 256 * (len : ℚ)).floor
  else ((255 - brightness) / 256 * (len : ℚ)).floor

/-- Character selection of the pixel loop: clamp the index to
`[0, len-1]` and read the palette.  A JS out-of-range string read yields
`undefined`; that is only reachable for an empty palette, which every theorem
below excludes, so the `getD` default is immaterial. -/
def selectChar (cs : List Char) (invert : Bool) (brightness : ℚ) : Char :=
  let charIndex := charIndexRaw invert cs.length brightness
  cs.getD (max 0 (min charIndex ((cs.length : ℤ) - 1))).toNat ' '

/-- The palette the conversion uses: detailed if `useDetailedCharSet`. -/
def activeCharSet (gen : ASCIIArtGenerator) : List Char :=
  if gen.useDetailedCharSet then gen.detailedCharSet else gen.charSet

/-- Character produced for one opaque pixel: luminance, then
contrast/brightness adjustment, then palette lookup. -/
def glyphChar (gen : ASCIIArtGenerator) (r g b : ℕ) : Char :=
  selectChar (activeCharSet gen) gen.invertBrightness
    (applyContrastAndBrightness gen.contrastFactor gen.brightnessFactor (luminance r g b))

/-- Preprocessing performed by `convertImageToASCII` before the pixel loop:
optional unsharp mask, then optional dithering. -/
def preprocess (gen : ASCIIArtGenerator) (pixels : List ℕ) (width height : ℕ) : List ℕ :=
  let p1 := if gen.applySharpening then applyUnsharpMask pixels width height else pixels
  if gen.applyDithering then applyFloydSteinbergDithering p1 width height gen.ditherAmount
  else p1

/-- One row of the plain-text output (`asciiArt`): transparent pixels emit a
blank, opaque pixels emit their glyph. -/
def renderPlainRow (gen : ASCIIArtGenerator) (pix : List ℕ) (width y : ℕ) : List Char :=
  (List.range width).map (fun x =>
    let idx := (y * width + x) * 4
    if pix.getD (idx + 3) 0 = 0 then ' '
    else glyphChar gen (pix.getD idx 0) (pix.getD (idx + 1) 0) (pix.getD (idx + 2) 0))

/-- One row of the colored output (`coloredAsciiArt`): a span (character plus
RGB) is appended only for opaque pixels — the transparent branch `continue`s
before any span is created. -/
def renderColorRow (gen : ASCIIArtGenerator) (pix : List ℕ) (width y : ℕ) :
    List (Char × ℕ × ℕ × ℕ) :=
  (List.range width).filterMap (fun x =>
    let idx := (y * width + x) * 4
    if pix.getD (idx + 3) 0 = 0 then none
    else some (glyphChar gen (pix.getD idx 0) (pix.getD (idx + 1) 0) (pix.getD (idx + 2) 0),
      pix.getD idx 0, pix.getD (idx + 1) 0, pix.getD (idx + 2) 0))

/-- Method `convertImageToASCII` from the decoded, resampled RGBA buffer on:
`width`/`height` are the canvas dimensions (`this.width` and the
aspect-derived height).  The method returns the colored DOM tree when
`colorMode` is set and the plain string otherwise. -/
def convertImageToASCII (gen : ASCIIArtGenerator) (pixels : List ℕ) (width height : ℕ) :
    List (List Char) ⊕ List (List (Char × ℕ × ℕ × ℕ)) :=
  let pix := preprocess gen pixels width height
  if gen.colorMode then Sum.inr ((List.range height).map (renderColorRow gen pix width))
  else Sum.inl ((List.range height).map (renderPlainRow gen pix width))

/-- Characters of either form of output, row by row. -/
def outChars : List (List Char) ⊕ List (List (Char × ℕ × ℕ × ℕ)) → List (List Char)
  | Sum.inl rows => rows
  | Sum.inr rows => rows.map (fun row => row.map Prod.fst)

/-- Number of rows of either form of output. -/
def outHeight : List (List Char) ⊕ List (List (Char × ℕ × ℕ × ℕ)) → ℕ
  | Sum.inl rows => rows.length
  | Sum.inr rows => rows.length

/-- Modelled from the spec (§4.4, claim C4): the quantization formula the spec
states for the ditherer, `gray = round(((r+g+b)/3) / 32) * 32`, as a value
(not yet stored into the clamping byte array). -/
def specGray (r g b : ℕ) : ℤ :=
  jsRound (((r : ℚ) + (g : ℚ) + (b : ℚ)) / 3 / 32) * 32

/-- Generator built from an empty option bag: every field takes its default. -/
def sampleGen : ASCIIArtGenerator := ASCIIArtGenerator.ofOptions {}


section Helpers

/-- Reading an index other than the one just written is unchanged. -/
lemma getD_set_ne (l : List ℕ) (i j v : ℕ) (h : i ≠ j) :
    (l.set i v).getD j 0 = l.getD j 0 := by
  rw [List.getD_eq_getElem?_getD, List.getD_eq_getElem?_getD, List.getElem?_set_ne h]

/-- Reading the index just written yields the written value (in range). -/
lemma getD_set_self (l : List ℕ) (i v : ℕ) (h : i < l.length) :
    (l.set i v).getD i 0 = v := by
  rw [List.getD_eq_getElem?_getD, List.getElem?_set_self', List.getElem?_eq_getElem h]
  rfl

/-- Writing back the value already present (or writing out of range) is a
no-op. -/
lemma set_getD_self (l : List ℕ) (i : ℕ) : l.set i (l.getD i 0) = l := by
  induction l generalizing i with
  | nil => rfl
  | cons a t ih =>
    cases i with
    | zero => rfl
    | succ j => simpa [List.set, List.getD] using ih j

/-- Writing a value known to be already present is a no-op. -/
lemma set_of_getD_eq (l : List ℕ) (i v : ℕ) (h : l.getD i 0 = v) : l.set i v = l := by
  rw [← h, set_getD_self]

/-- Entry `j` of a tabulated list. -/
lemma getD_map_range (f : ℕ → ℕ) (n j : ℕ) :
    ((List.range n).map f).getD j 0 = if j < n then f j else 0 := by
  rw [List.getD_eq_getElem?_getD, List.getElem?_map]
  by_cases h : j < n
  · rw [List.getElem?_range h]; simp [h]
  · rw [List.getElem?_eq_none (by simpa using Nat.le_of_not_lt h)]; simp [h]

/-- A fold whose step fixes the accumulator fixes it over the whole list. -/
lemma foldl_fixed {α β : Type} (f : α → β → α) (b : α) :
    ∀ l : List β, (∀ a ∈ l, f b a = b) → l.foldl f b = b
  | [], _ => rfl
  | x :: t, h => by
    rw [List.foldl_cons, h x (List.mem_cons_self x t)]
    exact foldl_fixed f b t (fun a ha => h a (List.mem_cons_of_mem x ha))

/-- An observation preserved by every step of a fold is preserved by the
fold. -/
lemma foldl_preserve {α β γ : Type} (f : α → β → α) (g : α → γ)
    (h : ∀ d x, g (f d x) = g d) : ∀ (l : List β) (d : α), g (l.foldl f d) = g d
  | [], _ => rfl
  | x :: t, d => by rw [List.foldl_cons, foldl_preserve f g h t (f d x), h]

/-- A `filterMap` that never drops an element is a `map`. -/
lemma filterMap_eq_map_of_some {α β : Type} (f : α → Option β) (g : α → β) :
    ∀ l : List α, (∀ a ∈ l, f a = some (g a)) → l.filterMap f = l.map g
  | [], _ => rfl
  | x :: t, h => by
    rw [List.filterMap_cons, h x (List.mem_cons_self x t), List.map_cons,
      filterMap_eq_map_of_some f g t (fun a ha => h a (List.mem_cons_of_mem x ha))]

/-- `Rat.floor` agrees with `⌊·⌋`. -/
lemma rat_floor_eq_floor (q : ℚ) : q.floor = ⌊q⌋ :=
  (Rat.floor_def' q).trans Rat.floor_def.symm

/-- Floor of a quotient of naturals is natural division. -/
lemma rat_floor_nat_div (a b : ℕ) : (((a : ℚ)) / (b : ℚ)).floor = (a / b : ℕ) := by
  rw [rat_floor_eq_floor, Rat.floor_natCast_div_natCast]
  exact (Int.ofNat_tdiv a b).symm

/-- `jsRound` on an integer is the identity. -/
lemma jsRound_intCast (z : ℤ) : jsRound (z : ℚ) = z := by
  unfold jsRound
  rw [rat_floor_eq_floor]
  rw [show ((z : ℚ) + 1/2) = (1/2 : ℚ) + z by ring, Int.floor_add_int]
  norm_num

/-- Storing an in-range integer returns it unchanged. -/
lemma toByte_natCast (n : ℕ) (h : n ≤ 255) : toByte (n : ℚ) = n := by
  have hc : max 0 (min 255 (n : ℚ)) = (n : ℚ) := by
    rw [min_eq_right (by exact_mod_cast h), max_eq_right (by positivity)]
  simp only [toByte, hc, rat_floor_eq_floor, Int.floor_natCast]
  norm_num

/-- Storing a nonnegative integer clamps it at 255. -/
lemma toByte_intCast (z : ℤ) (h : 0 ≤ z) : toByte (z : ℚ) = min z.toNat 255 := by
  rcases le_or_lt z 255 with hz | hz
  · have : toByte (z : ℚ) = z.toNat := by
      have hc : max 0 (min 255 (z : ℚ)) = (z : ℚ) := by
        rw [min_eq_right (by exact_mod_cast hz), max_eq_right (by exact_mod_cast h)]
      simp only [toByte, hc, rat_floor_eq_floor, Int.floor_intCast]
      norm_num
    rw [this, min_eq_left (by omega)]
  · have : toByte (z : ℚ) = 255 := by
      have hc : max 0 (min 255 (z : ℚ)) = (255 : ℚ) := by
        rw [min_eq_left (by exact_mod_cast hz.le), max_eq_right (by norm_num)]
      simp only [toByte, hc, rat_floor_eq_floor]
      norm_num
      rfl
    rw [this, min_eq_right (by omega)]

end Helpers

section DitherLemmas

/-- Reading an index disjoint from the three channels written by `addError`
is unchanged. -/
lemma getD_addError_ne (data : List ℕ) (base : ℕ) (eR eG eB f : ℚ) (j : ℕ)
    (h0 : j ≠ base) (h1 : j ≠ base + 1) (h2 : j ≠ base + 2) :
    (addError data base eR eG eB f).getD j 0 = data.getD j 0 := by
  simp only [addError]
  rw [getD_set_ne _ _ _ _ (Ne.symm h2), getD_set_ne _ _ _ _ (Ne.symm h1),
    getD_set_ne _ _ _ _ (Ne.symm h0)]

/-- Reading an index disjoint from every neighbour channel touched by
`distributeError` is unchanged.  The south-west condition is only needed when
that branch can run (`0 < x`). -/
lemma getD_distributeError_ne (width height idx x y j : ℕ) (eR eG eB : ℚ) (data : List ℕ)
    (hE0 : j ≠ idx + 4) (hE1 : j ≠ idx + 4 + 1) (hE2 : j ≠ idx + 4 + 2)
    (hW : 0 < x → j ≠ idx - 4 + width * 4 ∧ j ≠ idx - 4 + width * 4 + 1 ∧
      j ≠ idx - 4 + width * 4 + 2)
    (hS0 : j ≠ idx + width * 4) (hS1 : j ≠ idx + width * 4 + 1) (hS2 : j ≠ idx + width * 4 + 2)
    (hT0 : j ≠ idx + 4 + width * 4) (hT1 : j ≠ idx + 4 + width * 4 + 1)
    (hT2 : j ≠ idx + 4 + width * 4 + 2) :
    (distributeError width height idx x y eR eG eB data).getD j 0 = data.getD j 0 := by
  have pE : ∀ d : List ℕ, (addError d (idx + 4) eR eG eB (7/16)).getD j 0 = d.getD j 0 :=
    fun d => getD_addError_ne d _ _ _ _ _ j hE0 hE1 hE2
  have pS : ∀ d : List ℕ, (addError d (idx + width * 4) eR eG eB (5/16)).getD j 0 = d.getD j 0 :=
    fun d => getD_addError_ne d _ _ _ _ _ j hS0 hS1 hS2
  have pT : ∀ d : List ℕ,
      (addError d (idx + 4 + width * 4) eR eG eB (1/16)).getD j 0 = d.getD j 0 :=
    fun d => getD_addError_ne d _ _ _ _ _ j hT0 hT1 hT2
  by_cases hx : 0 < x
  · obtain ⟨w0, w1, w2⟩ := hW hx
    have pW : ∀ d : List ℕ,
        (addError d (idx - 4 + width * 4) eR eG eB (3/16)).getD j 0 = d.getD j 0 :=
      fun d => getD_addError_ne d _ _ _ _ _ j w0 w1 w2
    simp only [distributeError, if_pos hx,
      apply_ite (fun l : List ℕ => l.getD j 0), pE, pW, pS, pT, ite_self]
  · simp only [distributeError, if_neg hx,
      apply_ite (fun l : List ℕ => l.getD j 0), pE, pS, pT, ite_self]

/-- One dither step never changes an alpha channel (index `≡ 3 mod 4`). -/
lemma getD_ditherPixel_alpha (width height : ℕ) (s : ℚ) (data : List ℕ) (x y j : ℕ)
    (hj : j % 4 = 3) :
    (ditherPixel width height s data x y).getD j 0 = data.getD j 0 := by
  simp only [ditherPixel]
  split
  · rfl
  · rw [getD_distributeError_ne _ _ _ _ _ _ _ _ _ _ (by omega) (by omega) (by omega)
      (fun _ => by omega) (by omega) (by omega) (by omega) (by omega) (by omega) (by omega)]
    rw [getD_set_ne _ _ _ _ (by omega), getD_set_ne _ _ _ _ (by omega),
      getD_set_ne _ _ _ _ (by omega)]

/-- The whole dither pass never changes an alpha channel. -/
lemma getD_dither_alpha (pixels : List ℕ) (width height : ℕ) (s : ℚ) (j : ℕ)
    (hj : j % 4 = 3) :
    (applyFloydSteinbergDithering pixels width height s).getD j 0 = pixels.getD j 0 := by
  unfold applyFloydSteinbergDithering
  refine foldl_preserve _ (fun l : List ℕ => l.getD j 0) (fun d yy => ?_) _ _
  exact foldl_preserve _ (fun l : List ℕ => l.getD j 0)
    (fun d2 xx => getD_ditherPixel_alpha width height s d2 xx yy j hj) _ _

end DitherLemmas

section PipelineLemmas

/-- The unsharp mask never changes an alpha channel. -/
lemma getD_unsharp_alpha (pixels : List ℕ) (width height j : ℕ) (hj : j % 4 = 3) :
    (applyUnsharpMask pixels width height).getD j 0 = pixels.getD j 0 := by
  simp only [applyUnsharpMask]
  rw [getD_map_range]
  by_cases h : j < pixels.length
  · rw [if_pos h, if_pos hj]
  · rw [if_neg h, List.getD_eq_default _ _ (Nat.le_of_not_lt h)]

/-- Preprocessing (optional sharpening, then optional dithering) never changes
an alpha channel. -/
lemma getD_preprocess_alpha (gen : ASCIIArtGenerator) (pixels : List ℕ)
    (width height j : ℕ) (hj : j % 4 = 3) :
    (preprocess gen pixels width height).getD j 0 = pixels.getD j 0 := by
  unfold preprocess
  by_cases hd : gen.applyDithering = true
  · rw [if_pos hd]
    by_cases hs : gen.applySharpening = true
    · rw [if_pos hs, getD_dither_alpha _ _ _ _ _ hj, getD_unsharp_alpha _ _ _ _ hj]
    · rw [if_neg hs, getD_dither_alpha _ _ _ _ _ hj]
  · rw [if_neg hd]
    by_cases hs : gen.applySharpening = true
    · rw [if_pos hs, getD_unsharp_alpha _ _ _ _ hj]
    · rw [if_neg hs]

/-- On a row whose pixels are all opaque, the colored row's characters are
exactly the plain row. -/
lemma renderColorRow_chars (gen : ASCIIArtGenerator) (pix : List ℕ) (width y : ℕ)
    (hop : ∀ x, x < width → pix.getD ((y * width + x) * 4 + 3) 0 ≠ 0) :
    (renderColorRow gen pix width y).map Prod.fst = renderPlainRow gen pix width y := by
  unfold renderColorRow renderPlainRow
  rw [filterMap_eq_map_of_some _
    (fun x => (glyphChar gen (pix.getD ((y * width + x) * 4) 0)
        (pix.getD ((y * width + x) * 4 + 1) 0) (pix.getD ((y * width + x) * 4 + 2) 0),
      pix.getD ((y * width + x) * 4) 0, pix.getD ((y * width + x) * 4 + 1) 0,
      pix.getD ((y * width + x) * 4 + 2) 0))]
  · rw [List.map_map]
    refine List.map_congr_left (fun x hx => ?_)
    have h := hop x (List.mem_range.mp hx)
    simp only [List.getD_eq_getElem?_getD] at h
    simp [h]
  · intro x hx
    have h := hop x (List.mem_range.mp hx)
    simp only [List.getD_eq_getElem?_getD] at h
    simp [h]

end PipelineLemmas

/-- C1 (counterexample): on a 1×1 fully transparent buffer the plain rendering
emits a blank glyph but the colored rendering emits no glyph at all, so the two
outputs do not have identical characters at identical grid positions. -/
theorem c1_counterexample :
    outChars (convertImageToASCII { sampleGen with colorMode := true } [0, 0, 0, 0] 1 1) ≠
      outChars (convertImageToASCII { sampleGen with colorMode := false } [0, 0, 0, 0] 1 1) := by
  decide

/-- C1 (amended): for a buffer with no fully transparent pixel, rendering with
`colorMode` on and off yields identical characters at identical grid
positions.  (A transparent pixel yields a blank glyph only in the plain
output; the colored output skips it entirely.) -/
theorem c1_theorem (gen : ASCIIArtGenerator) (pixels : List ℕ) (width height : ℕ)
    (hop : ∀ i, i < width * height → pixels.getD (i * 4 + 3) 0 ≠ 0) :
    outChars (convertImageToASCII { gen with colorMode := true } pixels width height) =
      outChars (convertImageToASCII { gen with colorMode := false } pixels width height) := by
  have hpix : ∀ b : Bool, preprocess { gen with colorMode := b } pixels width height
      = preprocess gen pixels width height := fun _ => rfl
  simp only [convertImageToASCII, hpix]
  rw [if_pos trivial, if_neg Bool.false_ne_true]
  simp only [outChars]
  rw [List.map_map]
  refine List.map_congr_left (fun y hy => ?_)
  have hy' := List.mem_range.mp hy
  have hop' : ∀ x, x < width →
      (preprocess gen pixels width height).getD ((y * width + x) * 4 + 3) 0 ≠ 0 := by
    intro x hx
    rw [getD_preprocess_alpha gen pixels width height _ (by omega)]
    refine hop (y * width + x) ?_
    calc y * width + x < (y + 1) * width := by rw [Nat.succ_mul]; omega
      _ ≤ height * width := Nat.mul_le_mul_right width hy'
      _ = width * height := Nat.mul_comm height width
  exact (renderColorRow_chars _ _ width y hop').trans rfl

/-- Witness for C1: a concrete 1×1 opaque buffer satisfying the hypothesis. -/
theorem c1_witness :
    outChars (convertImageToASCII { sampleGen with colorMode := true } [5, 6, 7, 255] 1 1) =
      outChars (convertImageToASCII { sampleGen with colorMode := false } [5, 6, 7, 255] 1 1) :=
  c1_theorem sampleGen [5, 6, 7, 255] 1 1 (by decide)

set_option maxRecDepth 4000 in
/-- C2 (counterexample): `ditherAmount = 2` is outside the documented domain
`0.0–1.0`, yet the conversion does not fail: it returns a complete 1×1 grid.
No `ConfigurationError` exists anywhere in the code. -/
theorem c2_counterexample :
    convertImageToASCII { sampleGen with applyDithering := true, ditherAmount := 2 }
        [10, 10, 10, 255] 1 1 = Sum.inl [[' ']] := by
  decide

/-- C2 (amended): the conversion never fails: for every generator state (no
validation of any field is performed) it returns a complete `height`-row grid,
each plain-mode row having exactly `width` cells. -/
theorem c2_theorem (gen : ASCIIArtGenerator) (pixels : List ℕ) (width height : ℕ)
    (_hcs : activeCharSet gen ≠ []) :
    outHeight (convertImageToASCII gen pixels width height) = height ∧
    (gen.colorMode = false →
      (outChars (convertImageToASCII gen pixels width height)).map List.length =
        List.replicate height width) := by
  constructor
  · unfold convertImageToASCII
    by_cases hc : gen.colorMode = true
    · rw [if_pos hc]; simp [outHeight]
    · rw [if_neg hc]; simp [outHeight]
  · intro hcm
    unfold convertImageToASCII
    rw [if_neg (by simp [hcm])]
    simp only [outChars]
    rw [List.map_map]
    refine List.eq_replicate_iff.mpr ⟨by simp, fun w hw => ?_⟩
    obtain ⟨y, hy, rfl⟩ := List.mem_map.mp hw
    simp [renderPlainRow]

/-- Witness for C2: the default generator on a 1×1 opaque buffer. -/
theorem c2_witness :
    outHeight (convertImageToASCII sampleGen [10, 10, 10, 255] 1 1) = 1 ∧
    (outChars (convertImageToASCII sampleGen [10, 10, 10, 255] 1 1)).map List.length =
      List.replicate 1 1 :=
  ⟨(c2_theorem sampleGen [10, 10, 10, 255] 1 1 (by decide)).1,
   (c2_theorem sampleGen [10, 10, 10, 255] 1 1 (by decide)).2 rfl⟩

/-- C7: the midpoint 128 is a fixed point of the contrast/brightness
adjustment for every contrast factor (with brightness 0). -/
theorem c7_theorem (contrastFactor : ℚ) :
    applyContrastAndBrightness contrastFactor 0 128 = 128 := by
  unfold applyContrastAndBrightness
  rw [show ((128 : ℚ) - 128) * contrastFactor + 128 + 0 * 255 = 128 by ring]
  rw [min_eq_right (by norm_num), max_eq_right (by norm_num)]

/-- C10: the dithering call returns its input array, whose contents after the
call are the dithered contents — i.e. it mutates its input in place and the
input's contents equal the returned array's contents. -/
theorem c10_theorem (heap : ℕ → List ℕ) (pixels width height : ℕ) (ditherAmount : ℚ) :
    (applyFloydSteinbergDitheringCall heap pixels width height ditherAmount).2 = pixels ∧
    (applyFloydSteinbergDitheringCall heap pixels width height ditherAmount).1 pixels =
      applyFloydSteinbergDithering (heap pixels) width height ditherAmount ∧
    (applyFloydSteinbergDitheringCall heap pixels width height ditherAmount).1
        ((applyFloydSteinbergDitheringCall heap pixels width height ditherAmount).2) =
      (applyFloydSteinbergDitheringCall heap pixels width height ditherAmount).1 pixels :=
  ⟨rfl, by simp [applyFloydSteinbergDitheringCall], rfl⟩

/-- C9: every recognized constructor option whose supplied value is falsy is
silently replaced by its default, so no generator can have contrast factor `0`
or dither strength `0`. -/
theorem c9_theorem (options : GeneratorOptions) :
    (options.charSet = some [] →
      (ASCIIArtGenerator.ofOptions options).charSet = defaultCharSet) ∧
    (options.width = some 0 → (ASCIIArtGenerator.ofOptions options).width = 100) ∧
    (options.contrastFactor = some 0 →
      (ASCIIArtGenerator.ofOptions options).contrastFactor = 1) ∧
    (options.ditherAmount = some 0 →
      (ASCIIArtGenerator.ofOptions options).ditherAmount = 1/2) ∧
    (ASCIIArtGenerator.ofOptions options).contrastFactor ≠ 0 ∧
    (ASCIIArtGenerator.ofOptions options).ditherAmount ≠ 0 := by
  refine ⟨fun h => ?_, fun h => ?_, fun h => ?_, fun h => ?_, ?_, ?_⟩
  · show orDefaultStr options.charSet defaultCharSet = defaultCharSet
    rw [h]; rfl
  · show orDefaultZ options.width 100 = 100
    rw [h]; rfl
  · show orDefaultQ options.contrastFactor 1.0 = 1
    rw [h]; decide
  · show orDefaultQ options.ditherAmount 0.5 = 1/2
    rw [h]; decide
  · show orDefaultQ options.contrastFactor 1.0 ≠ 0
    rcases options.contrastFactor with _ | x
    · decide
    · show (if x = 0 then (1.0 : ℚ) else x) ≠ 0
      split
      · decide
      · next hx => exact hx
  · show orDefaultQ options.ditherAmount 0.5 ≠ 0
    rcases options.ditherAmount with _ | x
    · decide
    · show (if x = 0 then (0.5 : ℚ) else x) ≠ 0
      split
      · decide
      · next hx => exact hx

/-- Witness for C9: an option bag supplying all four falsy values. -/
theorem c9_witness :
    (ASCIIArtGenerator.ofOptions { charSet := some [], width := some 0,
                                   contrastFactor := some 0,
                                   ditherAmount := some 0 }).charSet = defaultCharSet ∧
    (ASCIIArtGenerator.ofOptions { charSet := some [], width := some 0,
                                   contrastFactor := some 0,
                                   ditherAmount := some 0 }).width = 100 ∧
    (ASCIIArtGenerator.ofOptions { charSet := some [], width := some 0,
                                   contrastFactor := some 0,
                                   ditherAmount := some 0 }).contrastFactor = 1 ∧
    (ASCIIArtGenerator.ofOptions { charSet := some [], width := some 0,
                                   contrastFactor := some 0,
                                   ditherAmount := some 0 }).ditherAmount = 1/2 :=
  ⟨(c9_theorem _).1 rfl, (c9_theorem _).2.1 rfl, (c9_theorem _).2.2.1 rfl,
   (c9_theorem _).2.2.2.1 rfl⟩

/-- A cell's linear index is below the cell count. -/
lemma cell_lt (x y width height : ℕ) (hx : x < width) (hy : y < height) :
    y * width + x < width * height :=
  calc y * width + x < (y + 1) * width := by rw [Nat.succ_mul]; omega
    _ ≤ height * width := Nat.mul_le_mul_right width hy
    _ = width * height := Nat.mul_comm height width

/-- `jsRound` on a natural number is the identity. -/
lemma jsRound_natCast (n : ℕ) : jsRound ((n : ℕ) : ℚ) = (n : ℤ) := by
  have := jsRound_intCast (n : ℤ)
  rwa [Int.cast_natCast] at this

/-- Every entry of a uniform opaque buffer is at most 255. -/
lemma bounded_of_uniform (pixels : List ℕ) (width height g : ℕ) (hg : g ≤ 255)
    (hu : ∀ i, i < width * height → pixels.getD (i * 4) 0 = g ∧
      pixels.getD (i * 4 + 1) 0 = g ∧ pixels.getD (i * 4 + 2) 0 = g ∧
      pixels.getD (i * 4 + 3) 0 = 255)
    (hlen : pixels.length = width * height * 4) :
    ∀ j, pixels.getD j 0 ≤ 255 := by
  intro j
  by_cases hj : j < pixels.length
  · have hi : j / 4 < width * height := by omega
    obtain ⟨h0, h1, h2, h3⟩ := hu (j / 4) hi
    have h4 : j % 4 = 0 ∨ j % 4 = 1 ∨ j % 4 = 2 ∨ j % 4 = 3 := by omega
    rcases h4 with h | h | h | h
    · rw [show j = j / 4 * 4 by omega, h0]; exact hg
    · rw [show j = j / 4 * 4 + 1 by omega, h1]; exact hg
    · rw [show j = j / 4 * 4 + 2 by omega, h2]; exact hg
    · rw [show j = j / 4 * 4 + 3 by omega, h3]
  · rw [List.getD_eq_default _ _ (Nat.le_of_not_lt hj)]; omega

/-- Adding a zero error (on a buffer of in-range bytes) is a no-op. -/
lemma addError_zero (data : List ℕ) (base : ℕ) (f : ℚ)
    (hb : ∀ j, data.getD j 0 ≤ 255) :
    addError data base 0 0 0 f = data := by
  have h : ∀ i, toByte (max 0 (min 255 ((data.getD i 0 : ℚ) + 0 * f))) = data.getD i 0 := by
    intro i
    rw [zero_mul, add_zero]
    have hc : max 0 (min 255 ((data.getD i 0 : ℕ) : ℚ)) = ((data.getD i 0 : ℕ) : ℚ) := by
      rw [min_eq_right (by exact_mod_cast hb i), max_eq_right (by positivity)]
    rw [hc]
    exact toByte_natCast _ (hb i)
  simp only [addError]
  rw [h base, set_getD_self, h (base + 1), set_getD_self, h (base + 2), set_getD_self]

/-- Distributing a zero error is a no-op. -/
lemma distributeError_zero (width height idx x y : ℕ) (data : List ℕ)
    (hb : ∀ j, data.getD j 0 ≤ 255) :
    distributeError width height idx x y 0 0 0 data = data := by
  have ae : ∀ base f, addError data base 0 0 0 f = data :=
    fun base f => addError_zero data base f hb
  simp only [distributeError, ae, ite_self]

/-- A dither step fixes a uniform opaque buffer whose gray level is a multiple
of 32. -/
lemma ditherPixel_uniform_fixed (width height : ℕ) (s : ℚ) (pixels : List ℕ) (k x y : ℕ)
    (hx : x < width) (hy : y < height) (hg255 : 32 * k ≤ 255)
    (hlen : pixels.length = width * height * 4)
    (hu : ∀ i, i < width * height → pixels.getD (i * 4) 0 = 32 * k ∧
      pixels.getD (i * 4 + 1) 0 = 32 * k ∧ pixels.getD (i * 4 + 2) 0 = 32 * k ∧
      pixels.getD (i * 4 + 3) 0 = 255) :
    ditherPixel width height s pixels x y = pixels := by
  obtain ⟨h0, h1, h2, h3⟩ := hu (y * width + x) (cell_lt x y width height hx hy)
  have hb := bounded_of_uniform pixels width height (32 * k) hg255 hu hlen
  simp only [ditherPixel]
  rw [if_neg (by rw [h3]; decide), h0, h1, h2]
  have hsum : (((32 * k : ℕ) : ℚ) + ((32 * k : ℕ) : ℚ) + ((32 * k : ℕ) : ℚ)) / 3 / 32
      = ((k : ℕ) : ℚ) := by push_cast; ring
  rw [hsum, jsRound_natCast]
  have htb : toByte ((((k : ℤ) * 32) : ℤ) : ℚ) = 32 * k := by
    rw [toByte_intCast _ (by positivity)]
    omega
  rw [htb, set_of_getD_eq _ _ _ h0, set_of_getD_eq _ _ _ h1, set_of_getD_eq _ _ _ h2]
  have herr : (((32 * k : ℕ) : ℚ) - (((k : ℤ) * 32 : ℤ) : ℚ)) * s = 0 := by push_cast; ring
  rw [herr]
  exact distributeError_zero _ _ _ _ _ _ hb

/-- The dither pass fixes a uniform opaque buffer whose gray level is a
multiple of 32. -/
lemma dither_uniform_fixed (pixels : List ℕ) (width height : ℕ) (s : ℚ) (g : ℕ)
    (hg : 32 ∣ g) (hg255 : g ≤ 255) (hlen : pixels.length = width * height * 4)
    (hu : ∀ i, i < width * height → pixels.getD (i * 4) 0 = g ∧
      pixels.getD (i * 4 + 1) 0 = g ∧ pixels.getD (i * 4 + 2) 0 = g ∧
      pixels.getD (i * 4 + 3) 0 = 255) :
    applyFloydSteinbergDithering pixels width height s = pixels := by
  obtain ⟨k, rfl⟩ := hg
  unfold applyFloydSteinbergDithering
  refine foldl_fixed _ _ _ (fun yy hyy => ?_)
  refine foldl_fixed _ _ _ (fun xx hxx => ?_)
  exact ditherPixel_uniform_fixed width height s pixels k xx yy
    (List.mem_range.mp hxx) (List.mem_range.mp hyy) hg255 hlen hu

/-- C8: dithering is idempotent on a fully opaque buffer whose pixels all have
`R = G = B = g` for one common multiple of 32. -/
theorem c8_theorem (pixels : List ℕ) (width height : ℕ) (s : ℚ) (g : ℕ)
    (hg : 32 ∣ g) (hg255 : g ≤ 255) (hlen : pixels.length = width * height * 4)
    (hu : ∀ i, i < width * height → pixels.getD (i * 4) 0 = g ∧
      pixels.getD (i * 4 + 1) 0 = g ∧ pixels.getD (i * 4 + 2) 0 = g ∧
      pixels.getD (i * 4 + 3) 0 = 255) :
    applyFloydSteinbergDithering (applyFloydSteinbergDithering pixels width height s)
        width height s
      = applyFloydSteinbergDithering pixels width height s := by
  rw [dither_uniform_fixed pixels width height s g hg hg255 hlen hu,
    dither_uniform_fixed pixels width height s g hg hg255 hlen hu]

/-- Witness for C8: a 1×1 opaque buffer at gray level 64, strength 1/2. -/
theorem c8_witness :
    applyFloydSteinbergDithering (applyFloydSteinbergDithering [64, 64, 64, 255] 1 1 (1/2))
        1 1 (1/2)
      = applyFloydSteinbergDithering [64, 64, 64, 255] 1 1 (1/2) :=
  c8_theorem [64, 64, 64, 255] 1 1 (1/2) 64 (by decide) (by decide) rfl (by decide)

/-- C3 (counterexample): in a 2×1 buffer whose first pixel is opaque
`(16,16,16)` and whose second is transparent with RGB `(100,100,100)`,
dithering writes diffused error into the transparent pixel: its red channel
changes from 100 to 96. -/
theorem c3_counterexample :
    [16, 16, 16, 255, 100, 100, 100, 0].getD 7 0 = 0 ∧
    [16, 16, 16, 255, 100, 100, 100, 0].getD 4 0 = 100 ∧
    (applyFloydSteinbergDithering [16, 16, 16, 255, 100, 100, 100, 0] 2 1 (1/2)).getD 4 0
      = 96 := by
  decide

/-- C3 (amended): a dither step on a transparent pixel is a strict no-op (its
value is not quantized and it diffuses no error), but error diffused from
earlier opaque pixels does reach transparent pixels: `addError` writes to the
in-bounds neighbours regardless of their alpha. -/
theorem c3_theorem (width height : ℕ) (ditherAmount : ℚ) (data : List ℕ) (x y : ℕ)
    (halpha : data.getD ((y * width + x) * 4 + 3) 0 = 0) :
    ditherPixel width height ditherAmount data x y = data := by
  simp only [ditherPixel]
  rw [if_pos halpha]

/-- Witness for C3: a 1×1 transparent buffer. -/
theorem c3_witness : ditherPixel 1 1 (1/2) [1, 2, 3, 0] 0 0 = [1, 2, 3, 0] :=
  c3_theorem 1 1 (1/2) [1, 2, 3, 0] 0 0 (by decide)

/-- C4 (counterexample): for the opaque white pixel the quantization formula
of the spec yields 256, but the stored channel value is the clamped 255 — a
ninth stored gray level beyond the eight the claim allows. -/
theorem c4_counterexample :
    (applyFloydSteinbergDithering [255, 255, 255, 255] 1 1 (1/2)).getD 0 0 = 255 ∧
    specGray 255 255 255 = 256 := by
  decide

/-- C4 (amended): an opaque pixel's three channels are all replaced by
`min(gray, 255)` where `gray = round(((r+g+b)/3)/32)*32` is computed from the
channel values at visit time; the stored value ranges over exactly the nine
levels 0, 32, …, 224, 255 (the formula's value 256, reached by near-white
pixels, is stored clamped to 255). -/
theorem c4_theorem (width height : ℕ) (ditherAmount : ℚ) (data : List ℕ) (x y : ℕ)
    (hx : x < width) (hy : y < height) (hlen : data.length = width * height * 4)
    (halpha : data.getD ((y * width + x) * 4 + 3) 0 ≠ 0)
    (hr : data.getD ((y * width + x) * 4) 0 ≤ 255)
    (hg : data.getD ((y * width + x) * 4 + 1) 0 ≤ 255)
    (hb : data.getD ((y * width + x) * 4 + 2) 0 ≤ 255) :
    ((ditherPixel width height ditherAmount data x y).getD ((y * width + x) * 4) 0 =
      (min (specGray (data.getD ((y * width + x) * 4) 0)
        (data.getD ((y * width + x) * 4 + 1) 0)
        (data.getD ((y * width + x) * 4 + 2) 0)) 255).toNat ∧
     (ditherPixel width height ditherAmount data x y).getD ((y * width + x) * 4 + 1) 0 =
      (min (specGray (data.getD ((y * width + x) * 4) 0)
        (data.getD ((y * width + x) * 4 + 1) 0)
        (data.getD ((y * width + x) * 4 + 2) 0)) 255).toNat ∧
     (ditherPixel width height ditherAmount data x y).getD ((y * width + x) * 4 + 2) 0 =
      (min (specGray (data.getD ((y * width + x) * 4) 0)
        (data.getD ((y * width + x) * 4 + 1) 0)
        (data.getD ((y * width + x) * 4 + 2) 0)) 255).toNat) ∧
    (min (specGray (data.getD ((y * width + x) * 4) 0)
      (data.getD ((y * width + x) * 4 + 1) 0)
      (data.getD ((y * width + x) * 4 + 2) 0)) 255).toNat
        ∈ ([0, 32, 64, 96, 128, 160, 192, 224, 255] : List ℕ) ∧
    (∀ v ∈ ([0, 32, 64, 96, 128, 160, 192, 224, 255] : List ℕ),
      ∃ c : ℕ, c ≤ 255 ∧ (min (specGray c c c) 255).toNat = v) := by
  simp only [specGray]
  set n := y * width + x with hn
  set r := data.getD (n * 4) 0 with hr_def
  set g := data.getD (n * 4 + 1) 0 with hg_def
  set b := data.getD (n * 4 + 2) 0 with hb_def
  have hcell : n < width * height := cell_lt x y width height hx hy
  have hq0 : (0 : ℚ) ≤ ((r : ℚ) + (g : ℚ) + (b : ℚ)) / 3 / 32 := by positivity
  have hm0 : 0 ≤ jsRound (((r : ℚ) + (g : ℚ) + (b : ℚ)) / 3 / 32) := by
    unfold jsRound
    rw [rat_floor_eq_floor]
    exact Int.le_floor.mpr (by positivity)
  have hg0 : 0 ≤ jsRound (((r : ℚ) + (g : ℚ) + (b : ℚ)) / 3 / 32) * 32 := by positivity
  have hv : toByte ((jsRound (((r : ℚ) + (g : ℚ) + (b : ℚ)) / 3 / 32) * 32 : ℤ) : ℚ) =
      (min (jsRound (((r : ℚ) + (g : ℚ) + (b : ℚ)) / 3 / 32) * 32) 255).toNat := by
    rw [toByte_intCast _ hg0]
    omega
  have hstep : ∀ j : ℕ, (j = n * 4 ∨ j = n * 4 + 1 ∨ j = n * 4 + 2) →
      (ditherPixel width height ditherAmount data x y).getD j 0 =
        (min (jsRound (((r : ℚ) + (g : ℚ) + (b : ℚ)) / 3 / 32) * 32) 255).toNat := by
    intro j hj
    simp only [ditherPixel, ← hn, ← hr_def, ← hg_def, ← hb_def]
    rw [if_neg halpha]
    rw [getD_distributeError_ne _ _ _ _ _ _ _ _ _ _ (by omega) (by omega) (by omega)
      (fun hx0 => by omega) (by omega) (by omega) (by omega) (by omega) (by omega) (by omega)]
    rcases hj with rfl | rfl | rfl
    · rw [getD_set_ne _ _ _ _ (by omega), getD_set_ne _ _ _ _ (by omega),
        getD_set_self _ _ _ (by omega)]
      exact hv
    · rw [getD_set_ne _ _ _ _ (by omega),
        getD_set_self _ _ _ (by rw [List.length_set]; omega)]
      exact hv
    · rw [getD_set_self _ _ _ (by rw [List.length_set, List.length_set]; omega)]
      exact hv
  refine ⟨⟨hstep _ (Or.inl rfl), hstep _ (Or.inr (Or.inl rfl)), hstep _ (Or.inr (Or.inr rfl))⟩,
    ?_, ?_⟩
  · have hr' : (r : ℚ) ≤ 255 := by exact_mod_cast hr
    have hg' : (g : ℚ) ≤ 255 := by exact_mod_cast hg
    have hb' : (b : ℚ) ≤ 255 := by exact_mod_cast hb
    have hm8 : jsRound (((r : ℚ) + (g : ℚ) + (b : ℚ)) / 3 / 32) ≤ 8 := by
      unfold jsRound
      rw [rat_floor_eq_floor]
      have h10 : ⌊((r : ℚ) + (g : ℚ) + (b : ℚ)) / 3 / 32 + 1/2⌋ < (9 : ℤ) := by
        rw [Int.floor_lt]
        push_cast
        linarith
      omega
    set m := jsRound (((r : ℚ) + (g : ℚ) + (b : ℚ)) / 3 / 32) with hm
    interval_cases m <;> decide
  · intro v hv'
    fin_cases hv'
    · exact ⟨0, by decide, by decide⟩
    · exact ⟨32, by decide, by decide⟩
    · exact ⟨64, by decide, by decide⟩
    · exact ⟨96, by decide, by decide⟩
    · exact ⟨128, by decide, by decide⟩
    · exact ⟨160, by decide, by decide⟩
    · exact ⟨192, by decide, by decide⟩
    · exact ⟨224, by decide, by decide⟩
    · exact ⟨255, by decide, by decide⟩

/-- Witness for C4: the 1×1 opaque white buffer (the clamped case). -/
theorem c4_witness :
    (ditherPixel 1 1 (1/2) [255, 255, 255, 255] 0 0).getD 0 0 =
      (min (specGray 255 255 255) 255).toNat ∧
    (min (specGray 255 255 255) 255).toNat ∈ ([0, 32, 64, 96, 128, 160, 192, 224, 255] : List ℕ) :=
  ⟨(c4_theorem 1 1 (1/2) [255, 255, 255, 255] 0 0 (by decide) (by decide) rfl (by decide)
      (by decide) (by decide) (by decide)).1.1,
   (c4_theorem 1 1 (1/2) [255, 255, 255, 255] 0 0 (by decide) (by decide) rfl (by decide)
      (by decide) (by decide) (by decide)).2.1⟩

/-- C5 (counterexample): on a 1×1 buffer (all pixels are border pixels) the
blur output's alpha is 0 while the input's alpha is 255, so the alpha channel
is not preserved at every position. -/
theorem c5_counterexample :
    (applyGaussianBlur [10, 20, 30, 255] 1 1).getD 3 0 = 0 ∧
    [10, 20, 30, 255].getD 3 0 = 255 := by
  decide

/-- C5 (amended): the blur returns a fresh buffer of identical length and
never mutates its input; the alpha channel is copied only at interior pixels,
while every border entry (alpha included) is 0. -/
theorem c5_theorem (pixels : List ℕ) (width height : ℕ) :
    (applyGaussianBlur pixels width height).length = pixels.length ∧
    (∀ x y : ℕ, 1 ≤ x → x + 1 < width → 1 ≤ y → y + 1 < height →
      (y * width + x) * 4 + 3 < pixels.length →
      (applyGaussianBlur pixels width height).getD ((y * width + x) * 4 + 3) 0 =
        pixels.getD ((y * width + x) * 4 + 3) 0) ∧
    (∀ j : ℕ, j < pixels.length →
      ¬(1 ≤ j / 4 % width ∧ j / 4 % width + 1 < width ∧
        1 ≤ j / 4 / width ∧ j / 4 / width + 1 < height) →
      (applyGaussianBlur pixels width height).getD j 0 = 0) ∧
    (∀ (heap : ℕ → List ℕ) (p fresh : ℕ), fresh ≠ p →
      (applyGaussianBlurCall heap p fresh width height).1 p = heap p ∧
      (applyGaussianBlurCall heap p fresh width height).1
          ((applyGaussianBlurCall heap p fresh width height).2) =
        applyGaussianBlur (heap p) width height) := by
  refine ⟨?_, ?_, ?_, ?_⟩
  · simp [applyGaussianBlur]
  · intro x y h1x h2x h1y h2y hlen
    have hww : 0 < width := by omega
    have hdiv : ((y * width + x) * 4 + 3) / 4 = y * width + x := by omega
    have hmod : ((y * width + x) * 4 + 3) % 4 = 3 := by omega
    have hxx : (y * width + x) % width = x := by
      conv_lhs => rw [show y * width + x = x + width * y by ring]
      rw [Nat.add_mul_mod_self_left, Nat.mod_eq_of_lt (by omega)]
    have hyy : (y * width + x) / width = y := by
      conv_lhs => rw [show y * width + x = x + width * y by ring]
      rw [Nat.add_mul_div_left _ _ hww, Nat.div_eq_of_lt (by omega)]
      omega
    unfold applyGaussianBlur
    rw [getD_map_range, if_pos hlen]
    simp only [blurEntry, hdiv, hmod, hxx, hyy]
    rw [if_pos ⟨h1x, h2x, h1y, h2y⟩, if_pos trivial]
  · intro j hj hni
    unfold applyGaussianBlur
    rw [getD_map_range, if_pos hj]
    simp only [blurEntry]
    rw [if_neg hni]
  · intro heap p fresh hne
    refine ⟨?_, ?_⟩
    · show (if p = fresh then _ else heap p) = heap p
      rw [if_neg (Ne.symm hne)]
    · show (if fresh = fresh then _ else _) = _
      rw [if_pos rfl]

/-- Witness for C5: a uniform 3×3 buffer; position (1,1) is the single
interior pixel, index 3 is a border alpha entry. -/
theorem c5_witness :
    (applyGaussianBlur (List.replicate 36 7) 3 3).length = (List.replicate 36 7).length ∧
    (applyGaussianBlur (List.replicate 36 7) 3 3).getD ((1 * 3 + 1) * 4 + 3) 0 =
      (List.replicate 36 7).getD ((1 * 3 + 1) * 4 + 3) 0 ∧
    (applyGaussianBlur (List.replicate 36 7) 3 3).getD 3 0 = 0 ∧
    (applyGaussianBlurCall (fun _ => List.replicate 36 7) 0 1 3 3).1 0 = List.replicate 36 7 :=
  ⟨(c5_theorem (List.replicate 36 7) 3 3).1,
   (c5_theorem (List.replicate 36 7) 3 3).2.1 1 1 (by decide) (by decide) (by decide)
     (by decide) (by decide),
   (c5_theorem (List.replicate 36 7) 3 3).2.2.1 3 (by decide) (by decide),
   ((c5_theorem (List.replicate 36 7) 3 3).2.2.2 (fun _ => List.replicate 36 7) 0 1
     (by decide)).1⟩

/-- C6: for adjusted luminance in `[0,255]` and a non-empty palette, the raw
index `floor(L/256·len)` (inverted) or `floor((255-L)/256·len)` already lies in
`[0, len-1]`, the clamp is the identity, and the selected character is the
palette entry at that index; with palette `"@ "` and no inversion, luminance
255 selects `'@'` and luminance 0 selects `' '`. -/
theorem c6_theorem (L : ℚ) (cs : List Char) (invert : Bool)
    (h0 : 0 ≤ L) (h255 : L ≤ 255) (hcs : cs ≠ []) :
    (0 ≤ charIndexRaw invert cs.length L ∧
      charIndexRaw invert cs.length L ≤ (cs.length : ℤ) - 1 ∧
      selectChar cs invert L = cs.getD (charIndexRaw invert cs.length L).toNat ' ') ∧
    selectChar ['@', ' '] false 255 = '@' ∧ selectChar ['@', ' '] false 0 = ' ' := by
  have hlen : 0 < cs.length := List.length_pos.mpr hcs
  have hlenq : (0 : ℚ) < (cs.length : ℚ) := by exact_mod_cast hlen
  have key : ∀ q : ℚ, 0 ≤ q → q < 256 →
      0 ≤ (q / 256 * (cs.length : ℚ)).floor ∧
        (q / 256 * (cs.length : ℚ)).floor ≤ (cs.length : ℤ) - 1 := by
    intro q hq hq'
    rw [rat_floor_eq_floor]
    constructor
    · exact Int.le_floor.mpr (by positivity)
    · have hlt : q / 256 * (cs.length : ℚ) < (cs.length : ℚ) := by
        have h1 : q / 256 < 1 := by rw [div_lt_one (by norm_num)]; linarith
        calc q / 256 * (cs.length : ℚ) < 1 * (cs.length : ℚ) :=
              mul_lt_mul_of_pos_right h1 hlenq
          _ = (cs.length : ℚ) := one_mul _
      have hfl : ⌊q / 256 * (cs.length : ℚ)⌋ < (cs.length : ℤ) :=
        Int.floor_lt.mpr (by exact_mod_cast hlt)
      omega
    
  have hbounds : 0 ≤ charIndexRaw invert cs.length L ∧
      charIndexRaw invert cs.length L ≤ (cs.length : ℤ) - 1 := by
    unfold charIndexRaw
    rcases invert with _ | _
    · rw [if_neg (by simp)]
      exact key (255 - L) (by linarith) (by linarith)
    · rw [if_pos rfl]
      exact key L h0 (by linarith)
  obtain ⟨hb0, hb1⟩ := hbounds
  refine ⟨⟨hb0, hb1, ?_⟩, by decide, by decide⟩
  have hclamp : max 0 (min (charIndexRaw invert cs.length L) ((cs.length : ℤ) - 1)) =
      charIndexRaw invert cs.length L := by omega
  simp only [selectChar, hclamp]

/-- Witness for C6: luminance 255 with palette `"@ "`, no inversion. -/
theorem c6_witness :
    (0 ≤ charIndexRaw false (['@', ' '] : List Char).length 255 ∧
      charIndexRaw false (['@', ' '] : List Char).length 255 ≤
        ((['@', ' '] : List Char).length : ℤ) - 1 ∧
      selectChar ['@', ' '] false 255 =
        (['@', ' '] : List Char).getD
          (charIndexRaw false (['@', ' '] : List Char).length 255).toNat ' ') ∧
    selectChar ['@', ' '] false 255 = '@' ∧ selectChar ['@', ' '] false 0 = ' ' :=
  c6_theorem 255 ['@', ' '] false (by decide) (by decide) (by decide)
